import Mathlib

/-!
Shallow embedding of the eye-pressure record application's core:
the grouping utilities (`groupRecords`, `create24hGroup`, `toChartData`,
`formatDate`, `formatTime`) and the record-source boundary
(`transformNotionPage`, `fetchAllRecords`).

Modelling conventions:
* A record's `date` field is the integer count of milliseconds since the
  Unix epoch, i.e. the value `new Date(r.date).getTime()` computes on the
  stored ISO string.
* JavaScript `Date` accessors (`getDate`, `getHours`, `getMinutes`) and
  the `zh-CN` locale date format are modelled for a fixed timezone offset
  `tz` in minutes east of UTC (a fixed-offset clock, no DST transitions);
  all theorems quantify over `tz`.  The Gregorian field extraction uses
  the standard days-to-civil algorithm, the one ECMA-262's
  `MonthFromTime`/`DateFromTime` specify.
* Numeric eye-pressure readings are rationals (ideal-precision
  arithmetic); `Math.round(x)` on a ratio of integers is `⌊x + 1/2⌋`,
  expressed with integer floor division.
* JavaScript number-to-string interpolation (used in group ids) is
  modelled by `intDecimal`, the plain decimal rendering.
* `Array.prototype.sort` with the ascending-date comparator is modelled
  by insertion sort on the date order; the relative order of records with
  equal timestamps is not relied on by any statement.
-/

namespace EyePressure

/-- The constant `THIRTY_HOURS_MS = 30 * 60 * 60 * 1000` from the grouping utilities. -/
def THIRTY_HOURS_MS : Int := 30 * 60 * 60 * 1000

/-- Interface `EyePressureRecord`: one measurement record. -/
structure EyePressureRecord where
  id : String
  name : String
  date : Int
  left : ℚ
  right : ℚ
  is24h : Bool
  note : String
deriving Repr, DecidableEq

/-- The `type` field of a group: `"24h" | "regular"`. -/
inductive GroupType where
  | h24
  | regular
deriving Repr, DecidableEq

/-- Interface `RecordGroup`: a derived group of records for display. -/
structure RecordGroup where
  id : String
  title : String
  type : GroupType
  records : List EyePressureRecord
deriving Repr, DecidableEq

/-- Interface `ChartDataPoint`.  `dateStr` carries the record's `date`
field through unchanged (in the source, the ISO string; here its
timestamp value).  `minutesFromStart` is optional in the source type but
always set by `toChartData`, so it is total here. -/
structure ChartDataPoint where
  label : String
  left : ℚ
  right : ℚ
  average : ℚ
  dateStr : Int
  minutesFromStart : Int
deriving Repr, DecidableEq

/-! ### JavaScript number-to-string and Date model -/

/-- Little-endian base-10 digits of `n`, computed with explicit fuel so
that the kernel can evaluate it (any `fuel ≥ n` gives the digits). -/
def digitsRev (fuel n : Nat) : List Nat :=
  match fuel with
  | 0 => []
  | fuel + 1 => if n = 0 then [] else (n % 10) :: digitsRev fuel (n / 10)

/-- Decimal rendering of a natural number, JavaScript `String(n)`. -/
def natDecimal (n : Nat) : String :=
  if n = 0 then "0" else String.mk (((digitsRev n n).reverse).map Nat.digitChar)

/-- Decimal rendering of an integer, JavaScript `String(i)` /
template-literal interpolation of an integral number. -/
def intDecimal : Int → String
  | .ofNat n => natDecimal n
  | .negSucc n => "-" ++ natDecimal (n + 1)

/-- Milliseconds per day. -/
def dayMs : Int := 86400000

/-- Local-clock milliseconds for a UTC timestamp `t` under the fixed
timezone offset `tz` (minutes east of UTC). -/
def localMs (tz t : Int) : Int := t + tz * 60000

/-- The calendar-day index (days since the epoch day, floor) that the
timestamp `t` falls on in timezone `tz`.  Two timestamps fall on the same
local calendar day exactly when their `epochDay`s agree. -/
def epochDay (tz t : Int) : Int := (localMs tz t).fdiv dayMs

/-- Milliseconds elapsed since local midnight. -/
def msOfDay (tz t : Int) : Int := (localMs tz t).fmod dayMs

/-- The accessor `Date.prototype.getHours`. -/
def getHours (tz t : Int) : Int := (msOfDay tz t).fdiv 3600000

/-- The accessor `Date.prototype.getMinutes`. -/
def getMinutes (tz t : Int) : Int := ((msOfDay tz t).fmod 3600000).fdiv 60000

/-- A proleptic-Gregorian civil date. -/
structure CivilDate where
  year : Int
  month : Int
  day : Int
deriving Repr, DecidableEq

/-- Convert a day count since 1970-01-01 to a civil date (the standard
era-based algorithm, equivalent to ECMA-262's `YearFromTime` /
`MonthFromTime` / `DateFromTime`). -/
def civilFromDays (z : Int) : CivilDate :=
  let a := z + 719468
  let era := a.fdiv 146097
  let doe := a - era * 146097
  let yoe := (doe - doe.fdiv 1460 + doe.fdiv 36524 - doe.fdiv 146096).fdiv 365
  let doy := doe - (365 * yoe + yoe.fdiv 4 - yoe.fdiv 100)
  let mp := (5 * doy + 2).fdiv 153
  let d := doy - (153 * mp + 2).fdiv 5 + 1
  let m := mp + (if mp < 10 then 3 else -9)
  { year := yoe + era * 400 + (if m ≤ 2 then 1 else 0), month := m, day := d }

/-- The civil date a timestamp falls on, in timezone `tz`. -/
def civilOf (tz t : Int) : CivilDate := civilFromDays (epochDay tz t)

/-- The accessor `Date.prototype.getDate`: the day of the month, `1..31`. -/
def getDate (tz t : Int) : Int := (civilOf tz t).day

/-- Two-digit zero-padded rendering (`String(n).padStart(2, "0")`). -/
def pad2 (n : Int) : String :=
  if 0 ≤ n ∧ n < 10 then "0" ++ intDecimal n else intDecimal n

/-- The helper `formatDate`: `date.toLocaleDateString("zh-CN", {year: "numeric",
month: "2-digit", day: "2-digit"})`, i.e. `YYYY/MM/DD`. -/
def formatDate (tz t : Int) : String :=
  intDecimal (civilOf tz t).year ++ "/" ++ pad2 (civilOf tz t).month ++ "/" ++
    pad2 (civilOf tz t).day

/-- The helper `formatTime`: hours and minutes, each zero-padded to two digits,
joined by a colon. -/
def formatTime (tz t : Int) : String :=
  pad2 (getHours tz t) ++ ":" ++ pad2 (getMinutes tz t)

/-! ### Sorting model -/

/-- The ascending-date order used by the comparator
`(a, b) => new Date(a.date).getTime() - new Date(b.date).getTime()`. -/
def dLE (a b : EyePressureRecord) : Prop := a.date ≤ b.date

instance : DecidableRel dLE := fun a b => Int.decLe a.date b.date

instance : IsTotal EyePressureRecord dLE := ⟨fun a b => Int.le_total a.date b.date⟩

instance : IsTrans EyePressureRecord dLE := ⟨fun _ _ _ hab hbc => le_trans hab hbc⟩

/-- Model of `[...arr].sort((a, b) => dateA - dateB)`: sort ascending by date. -/
def sortByDate (l : List EyePressureRecord) : List EyePressureRecord :=
  List.insertionSort dLE l

/-! ### Grouping engine -/

/-- The helper `create24hGroup`: build a continuous-mode group; id and title derive
from the first record's timestamp. -/
def create24hGroup (tz : Int) (records : List EyePressureRecord) : RecordGroup :=
  let firstTime := ((records.head?).map EyePressureRecord.date).getD 0
  { id := "24h-" ++ intDecimal firstTime,
    title := "24小时眼压 - " ++ formatDate tz firstTime,
    type := .h24,
    records := records }

/-- The greedy forward scan of `groupRecords` over the date-sorted
continuous records: `anchor` is the current group's first record,
`cur` the records appended to it so far (in order), and the argument
list the records still to visit.  A record within `THIRTY_HOURS_MS` of
the anchor joins the current group; otherwise the group is closed and
the record anchors a new one.  The final group is always emitted. -/
def scan30h (anchor : EyePressureRecord) (cur : List EyePressureRecord) :
    List EyePressureRecord → List (List EyePressureRecord)
  | [] => [anchor :: cur]
  | r :: rest =>
    if r.date - anchor.date ≤ THIRTY_HOURS_MS then
      scan30h anchor (cur ++ [r]) rest
    else
      (anchor :: cur) :: scan30h r [] rest

/-- The grouping engine `groupRecords`: partition by the `is24h` flag, put the single regular
group (if any regular records exist) first, then the continuous groups
produced by the 30-hour scan over the date-sorted continuous records. -/
def groupRecords (tz : Int) (records : List EyePressureRecord) : List RecordGroup :=
  let records24h := records.filter (fun r => r.is24h)
  let regularRecords := records.filter (fun r => !r.is24h)
  let regularGroups : List RecordGroup :=
    if 0 < regularRecords.length then
      [{ id := "regular", title := "常规眼压测量", type := .regular,
         records := sortByDate regularRecords }]
    else []
  let groups24h : List RecordGroup :=
    match sortByDate records24h with
    | [] => []
    | first :: rest => (scan30h first [] rest).map (create24hGroup tz)
  regularGroups ++ groups24h

/-! ### Chart transform -/

/-- Model of `Math.round((t - t0) / 60000)`: elapsed minutes rounded to the
nearest whole minute, halves up (`Math.round x = ⌊x + 1/2⌋`). -/
def minutesFrom (t0 t : Int) : Int := ((t - t0) + 30000).fdiv 60000

/-- The chart transform `toChartData`: map each record of a group to a chart point.  Labels:
for a continuous group, the zero-padded time of day, prefixed by `"+1 "`
when the record's `getDate` differs from the first record's; for a
regular group, the locale-formatted date. -/
def toChartData (tz : Int) (group : RecordGroup) : List ChartDataPoint :=
  match group.records.head? with
  | none => []
  | some first =>
    group.records.map (fun record =>
      let label :=
        if group.type = GroupType.h24 then
          let timeStr := formatTime tz record.date
          if getDate tz record.date ≠ getDate tz first.date then
            "+1 " ++ timeStr
          else timeStr
        else formatDate tz record.date
      { label := label,
        left := record.left,
        right := record.right,
        average := (record.left + record.right) / 2,
        dateStr := record.date,
        minutesFromStart := minutesFrom first.date record.date })

/-! ### Record-source boundary -/

/-- The fields `transformNotionPage` reads off a raw Notion page, each
optional: absence models a missing/empty property path (`?.` chains and
`?? / ||` defaults in the source).  The `date` field, when present, is
the parsed timestamp of `props.Date.date.start`. -/
structure NotionPage where
  id : String
  name : Option String
  date : Option Int
  left : Option ℚ
  right : Option ℚ
  is24h : Option Bool
  note : Option String
deriving Repr, DecidableEq

/-- The page transform `transformNotionPage`: a page without a date value yields `none`
(the record is dropped); every other missing field falls back to a
benign default. -/
def transformNotionPage (page : NotionPage) : Option EyePressureRecord :=
  match page.date with
  | none => none
  | some d =>
    some { id := page.id,
           name := page.name.getD "",
           date := d,
           left := page.left.getD 0,
           right := page.right.getD 0,
           is24h := page.is24h.getD false,
           note := page.note.getD "" }

/-- The fetch loop `fetchAllRecords`, restricted to its per-page transformation loop:
pages whose transformation returns `null` are skipped, the rest are
collected in order. -/
def fetchAllRecords (pages : List NotionPage) : List EyePressureRecord :=
  pages.filterMap transformNotionPage

/-- The date of a group's first record (`0` for an empty group; every
group `groupRecords` produces is non-empty). -/
def anchorDate (g : RecordGroup) : Int :=
  ((g.records.head?).map EyePressureRecord.date).getD 0

/-- The date of the first record of a record list (`0` when empty). -/
def listAnchor (l : List EyePressureRecord) : Int :=
  ((l.head?).map EyePressureRecord.date).getD 0

/-! ### Concrete fixtures

Small concrete records used to instantiate the theorems below (the
spec's own scenario: continuous records at `T`, `T + 10h`, `T + 31h`,
plus one regular record). -/

/-- Continuous record at `T = 0`. -/
def wRecA : EyePressureRecord := ⟨"a", "", 0, 10, 12, true, ""⟩

/-- Continuous record at `T + 10h`. -/
def wRecB : EyePressureRecord := ⟨"b", "", 36000000, 11, 13, true, ""⟩

/-- Continuous record at `T + 31h`. -/
def wRecC : EyePressureRecord := ⟨"c", "", 111600000, 14, 15, true, ""⟩

/-- Regular (non-continuous) record. -/
def wRecR : EyePressureRecord := ⟨"r", "", 5000, 16, 17, false, "note"⟩

/-- A mixed, unordered input list. -/
def wInput : List EyePressureRecord := [wRecC, wRecR, wRecA, wRecB]

/-- The first continuous group that `groupRecords 0 wInput` produces. -/
def wG : RecordGroup := create24hGroup 0 [wRecA, wRecB]

/-- A group with no records. -/
def wEmptyG : RecordGroup :=
  { id := "e", title := "t", type := GroupType.h24, records := [] }

/-- A raw page whose date value is missing. -/
def wPageNoDate : NotionPage :=
  { id := "p1", name := some "alice", date := none, left := some 10,
    right := none, is24h := some true, note := none }

/-- A raw page with a date but several other fields missing. -/
def wPageFull : NotionPage :=
  { id := "p2", name := none, date := some 5000, left := some 10,
    right := some 12, is24h := none, note := none }

/-- The record `transformNotionPage` produces for `wPageFull`. -/
def wRecF : EyePressureRecord := ⟨"p2", "", 5000, 10, 12, false, ""⟩

/-- The single (regular) group over `[wRecF]`. -/
def wRegG : RecordGroup :=
  { id := "regular", title := "常规眼压测量", type := GroupType.regular,
    records := [wRecF] }

/-! ### Decomposition of the civil-date algorithm

The stages of `civilFromDays`, named so that its `day` field can be
reasoned about: day-of-era, year-of-era, day-of-year, and day-of-month.
Each is definitionally the corresponding `let` of `civilFromDays`. -/

/-- Day of era: `doe` in `civilFromDays`. -/
def doeOf (z : Int) : Int :=
  (z + 719468) - ((z + 719468).fdiv 146097) * 146097

/-- The year-of-era numerator of `civilFromDays`. -/
def gI (doe : Int) : Int :=
  doe - doe.fdiv 1460 + doe.fdiv 36524 - doe.fdiv 146096

/-- Year of era: `yoe` in `civilFromDays`. -/
def yoeOf (doe : Int) : Int := (gI doe).fdiv 365

/-- First day-of-era of year-of-era `y`. -/
def startI (y : Int) : Int := 365 * y + y.fdiv 4 - y.fdiv 100

/-- Day of year (March-based): `doy` in `civilFromDays`. -/
def doyOf (doe : Int) : Int := doe - startI (yoeOf doe)

/-- Month index: `mp` in `civilFromDays`. -/
def mpI (doy : Int) : Int := (5 * doy + 2).fdiv 153

/-- Day of month: `d` in `civilFromDays`. -/
def domI (doy : Int) : Int := doy - (153 * mpI doy + 2).fdiv 5 + 1

/-- Version of `startI` over naturals. -/
def startN (y : Nat) : Nat := 365 * y + y / 4 - y / 100

/-- Counterexample record at `1970-01-01T00:00Z`. -/
def cexA : EyePressureRecord := ⟨"x", "", 0, 10, 12, true, ""⟩

/-- Counterexample record at `1970-02-01T00:00Z`, 31 days later: a
different calendar day with the same day-of-month. -/
def cexB : EyePressureRecord := ⟨"y", "", 2678400000, 11, 13, true, ""⟩

/-- A continuous-mode group whose records are a month apart (not a group
the grouping engine would build). -/
def cexG : RecordGroup :=
  { id := "g", title := "t", type := GroupType.h24,
    records := [cexA, cexB] }

/-- Continuous record at `1970-01-01T23:00Z`. -/
def wNightA : EyePressureRecord := ⟨"n1", "", 82800000, 10, 12, true, ""⟩

/-- Continuous record at `1970-01-02T01:00Z`, two hours later, across
midnight. -/
def wNightB : EyePressureRecord := ⟨"n2", "", 90000000, 11, 13, true, ""⟩

/-- The midnight-crossing continuous group. -/
def wNightG : RecordGroup := create24hGroup 0 [wNightA, wNightB]

/-- The chart point `toChartData` produces for `wNightB` in `wNightG`:
its label carries the day-offset marker. -/
def wNightPointB : ChartDataPoint :=
  { label := "+1 " ++ formatTime 0 wNightB.date,
    left := wNightB.left,
    right := wNightB.right,
    average := (wNightB.left + wNightB.right) / 2,
    dateStr := wNightB.date,
    minutesFromStart := minutesFrom wNightA.date wNightB.date }

/-- The chart point `toChartData` produces for `wRecA` inside `wG`. -/
def wPointA : ChartDataPoint :=
  { label := formatTime 0 wRecA.date,
    left := wRecA.left,
    right := wRecA.right,
    average := (wRecA.left + wRecA.right) / 2,
    dateStr := wRecA.date,
    minutesFromStart := minutesFrom wRecA.date wRecA.date }

/-- The chart point `toChartData` produces for `wRecB` inside `wG`. -/
def wPointB : ChartDataPoint :=
  { label := formatTime 0 wRecB.date,
    left := wRecB.left,
    right := wRecB.right,
    average := (wRecB.left + wRecB.right) / 2,
    dateStr := wRecB.date,
    minutesFromStart := minutesFrom wRecA.date wRecB.date }

/-! ### Sorting lemmas -/

theorem sortByDate_perm (l : List EyePressureRecord) : (sortByDate l).Perm l :=
  List.perm_insertionSort dLE l

theorem sortByDate_sorted (l : List EyePressureRecord) :
    List.Sorted dLE (sortByDate l) :=
  List.sorted_insertionSort dLE l

/-! ### Lemmas about the 30-hour scan -/

theorem scan30h_flatten :
    ∀ (rest : List EyePressureRecord) (anchor : EyePressureRecord)
      (cur : List EyePressureRecord),
      (scan30h anchor cur rest).flatten = anchor :: (cur ++ rest) := by
  intro rest
  induction rest with
  | nil => intro a cur; simp [scan30h]
  | cons r rest ih =>
    intro a cur
    by_cases h : r.date - a.date ≤ THIRTY_HOURS_MS
    · simp only [scan30h, if_pos h, ih]
      simp
    · simp only [scan30h, if_neg h, List.flatten_cons, ih]
      simp

theorem scan30h_ne_nil :
    ∀ (rest : List EyePressureRecord) (anchor : EyePressureRecord)
      (cur : List EyePressureRecord) (g : List EyePressureRecord),
      g ∈ scan30h anchor cur rest → g ≠ [] := by
  intro rest
  induction rest with
  | nil =>
    intro a cur g hg
    simp [scan30h] at hg
    simp [hg]
  | cons r rest ih =>
    intro a cur g hg
    by_cases h : r.date - a.date ≤ THIRTY_HOURS_MS
    · rw [scan30h, if_pos h] at hg
      exact ih a (cur ++ [r]) g hg
    · rw [scan30h, if_neg h] at hg
      rcases List.mem_cons.mp hg with rfl | hg
      · simp
      · exact ih r [] g hg

theorem scan30h_shape :
    ∀ (rest : List EyePressureRecord) (anchor : EyePressureRecord)
      (cur : List EyePressureRecord),
      ∃ cur2 gs, scan30h anchor cur rest = (anchor :: cur2) :: gs := by
  intro rest
  induction rest with
  | nil => intro a cur; exact ⟨cur, [], rfl⟩
  | cons r rest ih =>
    intro a cur
    by_cases h : r.date - a.date ≤ THIRTY_HOURS_MS
    · rw [scan30h, if_pos h]; exact ih a (cur ++ [r])
    · rw [scan30h, if_neg h]; exact ⟨cur, scan30h r [] rest, rfl⟩

theorem scan30h_chain :
    ∀ (rest : List EyePressureRecord) (anchor : EyePressureRecord)
      (cur : List EyePressureRecord),
      List.Chain' (fun g1 g2 => listAnchor g1 + THIRTY_HOURS_MS < listAnchor g2)
        (scan30h anchor cur rest) := by
  intro rest
  induction rest with
  | nil => intro a cur; simp [scan30h]
  | cons r rest ih =>
    intro a cur
    by_cases h : r.date - a.date ≤ THIRTY_HOURS_MS
    · rw [scan30h, if_pos h]; exact ih a (cur ++ [r])
    · rw [scan30h, if_neg h]
      obtain ⟨cur2, gs, heq⟩ := scan30h_shape rest r []
      rw [heq]
      refine List.chain'_cons.mpr ⟨?_, ?_⟩
      · simp only [listAnchor, List.head?_cons, Option.map_some', Option.getD_some]
        omega
      · rw [← heq]; exact ih r []

theorem scan30h_groups_ok :
    ∀ (rest : List EyePressureRecord) (anchor : EyePressureRecord)
      (cur : List EyePressureRecord),
      (∀ r ∈ cur, anchor.date ≤ r.date ∧ r.date - anchor.date ≤ THIRTY_HOURS_MS) →
      List.Sorted dLE (anchor :: (cur ++ rest)) →
      ∀ g ∈ scan30h anchor cur rest,
        g ≠ [] ∧ List.Sorted dLE g ∧
        ∀ f ∈ g.head?, ∀ r ∈ g,
          f.date ≤ r.date ∧ r.date - f.date ≤ THIRTY_HOURS_MS := by
  intro rest
  induction rest with
  | nil =>
    intro a cur hcur hsort g hg
    simp only [scan30h, List.mem_singleton] at hg
    subst hg
    refine ⟨by simp, by simpa using hsort, ?_⟩
    intro f hf r hr
    simp only [List.head?_cons, Option.mem_def, Option.some.injEq] at hf
    subst hf
    rcases List.mem_cons.mp hr with rfl | hr
    · exact ⟨le_refl _, by norm_num [THIRTY_HOURS_MS]⟩
    · exact hcur r hr
  | cons x rest ih =>
    intro a cur hcur hsort
    by_cases h : x.date - a.date ≤ THIRTY_HOURS_MS
    · rw [scan30h, if_pos h]
      have hax : a.date ≤ x.date := by
        have := List.rel_of_sorted_cons hsort x (by simp)
        exact this
      have hcur2 : ∀ r ∈ cur ++ [x],
          a.date ≤ r.date ∧ r.date - a.date ≤ THIRTY_HOURS_MS := by
        intro r hr
        rcases List.mem_append.mp hr with hr | hr
        · exact hcur r hr
        · rcases List.mem_singleton.mp hr with rfl
          exact ⟨hax, h⟩
      have hsort2 : List.Sorted dLE (a :: ((cur ++ [x]) ++ rest)) := by
        simpa [List.append_assoc] using hsort
      exact ih a (cur ++ [x]) hcur2 hsort2
    · rw [scan30h, if_neg h]
      intro g hg
      rcases List.mem_cons.mp hg with rfl | hg
      · refine ⟨by simp, ?_, ?_⟩
        · exact hsort.sublist (by
            refine List.cons_sublist_cons.mpr ?_
            exact List.sublist_append_left cur (x :: rest))
        · intro f hf r hr
          simp only [List.head?_cons, Option.mem_def, Option.some.injEq] at hf
          subst hf
          rcases List.mem_cons.mp hr with rfl | hr
          · exact ⟨le_refl _, by norm_num [THIRTY_HOURS_MS]⟩
          · exact hcur r hr
      · refine ih x [] (by simp) ?_ g hg
        have : (x :: rest).Sublist (a :: (cur ++ x :: rest)) := by
          refine List.Sublist.cons _ ?_
          exact (List.sublist_append_right cur (x :: rest))
        simpa using hsort.sublist this

/-! ### Structure of the grouping output -/

theorem groupRecords_def (tz : Int) (rs : List EyePressureRecord) :
    groupRecords tz rs =
      (if 0 < (rs.filter fun r => !r.is24h).length then
        [{ id := "regular", title := "常规眼压测量", type := GroupType.regular,
           records := sortByDate (rs.filter fun r => !r.is24h) }]
      else []) ++
      (match sortByDate (rs.filter fun r => r.is24h) with
       | [] => []
       | first :: rest => (scan30h first [] rest).map (create24hGroup tz)) := rfl

theorem create24hGroup_records (tz : Int) (l : List EyePressureRecord) :
    (create24hGroup tz l).records = l := rfl

theorem create24hGroup_type (tz : Int) (l : List EyePressureRecord) :
    (create24hGroup tz l).type = GroupType.h24 := rfl

theorem create24hGroup_id (tz : Int) (l : List EyePressureRecord) :
    (create24hGroup tz l).id = "24h-" ++ intDecimal (listAnchor l) := rfl

theorem anchorDate_create24hGroup (tz : Int) (l : List EyePressureRecord) :
    anchorDate (create24hGroup tz l) = listAnchor l := rfl

theorem mem_groupRecords_h24 {tz : Int} {rs : List EyePressureRecord}
    {g : RecordGroup} (hg : g ∈ groupRecords tz rs)
    (ht : g.type = GroupType.h24) :
    ∃ first rest l, sortByDate (rs.filter fun r => r.is24h) = first :: rest ∧
      l ∈ scan30h first [] rest ∧ g = create24hGroup tz l := by
  rw [groupRecords_def] at hg
  rcases List.mem_append.mp hg with hg | hg
  · exfalso
    by_cases hc : 0 < (rs.filter fun r => !r.is24h).length
    · rw [if_pos hc, List.mem_singleton] at hg
      rw [hg] at ht
      exact absurd ht (by simp)
    · rw [if_neg hc] at hg
      exact absurd hg (List.not_mem_nil g)
  · rcases hs : sortByDate (rs.filter fun r => r.is24h) with _ | ⟨first, rest⟩
    · rw [hs] at hg
      exact absurd hg (List.not_mem_nil g)
    · rw [hs] at hg
      obtain ⟨l, hl, rfl⟩ := List.mem_map.mp hg
      exact ⟨first, rest, l, rfl, hl, rfl⟩

theorem mem_groupRecords_regular {tz : Int} {rs : List EyePressureRecord}
    {g : RecordGroup} (hg : g ∈ groupRecords tz rs)
    (ht : g.type = GroupType.regular) :
    0 < (rs.filter fun r => !r.is24h).length ∧
      g = { id := "regular", title := "常规眼压测量", type := GroupType.regular,
            records := sortByDate (rs.filter fun r => !r.is24h) } := by
  rw [groupRecords_def] at hg
  rcases List.mem_append.mp hg with hg | hg
  · by_cases hc : 0 < (rs.filter fun r => !r.is24h).length
    · rw [if_pos hc, List.mem_singleton] at hg
      exact ⟨hc, hg⟩
    · rw [if_neg hc] at hg
      exact absurd hg (List.not_mem_nil g)
  · exfalso
    rcases hs : sortByDate (rs.filter fun r => r.is24h) with _ | ⟨first, rest⟩
    · rw [hs] at hg
      exact absurd hg (List.not_mem_nil g)
    · rw [hs] at hg
      obtain ⟨l, _, rfl⟩ := List.mem_map.mp hg
      exact absurd ht (by simp [create24hGroup])

theorem mem_records_of_mem_groupRecords {tz : Int} {rs : List EyePressureRecord}
    {g : RecordGroup} {r : EyePressureRecord}
    (hg : g ∈ groupRecords tz rs) (hr : r ∈ g.records) : r ∈ rs := by
  rcases htype : g.type with _ | _
  · obtain ⟨first, rest, l, hs, hl, rfl⟩ := mem_groupRecords_h24 hg htype
    rw [create24hGroup_records] at hr
    have hmem : r ∈ (scan30h first [] rest).flatten :=
      List.mem_flatten.mpr ⟨l, hl, hr⟩
    rw [scan30h_flatten] at hmem
    have : r ∈ sortByDate (rs.filter fun x => x.is24h) := by
      rw [hs]; simpa using hmem
    have := (sortByDate_perm _).mem_iff.mp this
    exact (List.mem_filter.mp this).1
  · obtain ⟨_, rfl⟩ := mem_groupRecords_regular hg htype
    have : r ∈ sortByDate (rs.filter fun x => !x.is24h) := hr
    have := (sortByDate_perm _).mem_iff.mp this
    exact (List.mem_filter.mp this).1

/-- C9: `groupRecords` applied to the empty record list returns the
empty list of groups. -/
theorem groupRecords_nil (tz : Int) : groupRecords tz [] = [] := rfl

/-- C10: every group `groupRecords` produces is non-empty, so its first
record (the source of its id, title and chart anchor) exists. -/
theorem groupRecords_groups_nonempty (tz : Int) (rs : List EyePressureRecord) :
    ∀ g ∈ groupRecords tz rs, g.records ≠ [] ∧ ∃ f, g.records.head? = some f := by
  intro g hg
  have hne : g.records ≠ [] := by
    rcases htype : g.type with _ | _
    · obtain ⟨first, rest, l, _, hl, rfl⟩ := mem_groupRecords_h24 hg htype
      rw [create24hGroup_records]
      exact scan30h_ne_nil rest first [] l hl
    · obtain ⟨hlen, rfl⟩ := mem_groupRecords_regular hg htype
      intro hnil
      have hnil2 : sortByDate (rs.filter fun r => !r.is24h) = [] := hnil
      have h2 := (sortByDate_perm (rs.filter fun r => !r.is24h)).length_eq
      rw [hnil2] at h2
      simp only [List.length_nil] at h2
      omega
  refine ⟨hne, ?_⟩
  rcases hr : g.records with _ | ⟨f, t⟩
  · exact absurd hr hne
  · exact ⟨f, rfl⟩

/-- Instantiation of `groupRecords_groups_nonempty` at the concrete
mixed input. -/
theorem groupRecords_groups_nonempty_witness :
    wG ∈ groupRecords 0 wInput ∧ wG.records ≠ [] ∧
      ∃ f, wG.records.head? = some f :=
  ⟨by decide, groupRecords_groups_nonempty 0 wInput wG (by decide)⟩

theorem groupRecords_filter_h24 (tz : Int) (rs : List EyePressureRecord) :
    (groupRecords tz rs).filter (fun g => g.type == GroupType.h24) =
      match sortByDate (rs.filter fun r => r.is24h) with
      | [] => []
      | first :: rest => (scan30h first [] rest).map (create24hGroup tz) := by
  rw [groupRecords_def, List.filter_append]
  have h1 : (if 0 < (rs.filter fun r => !r.is24h).length then
      [{ id := "regular", title := "常规眼压测量", type := GroupType.regular,
         records := sortByDate (rs.filter fun r => !r.is24h) }]
      else ([] : List RecordGroup)).filter (fun g => g.type == GroupType.h24)
      = [] := by
    by_cases hc : 0 < (rs.filter fun r => !r.is24h).length
    · rw [if_pos hc]; rfl
    · rw [if_neg hc]; rfl
  rw [h1, List.nil_append]
  rcases hs : sortByDate (rs.filter fun r => r.is24h) with _ | ⟨first, rest⟩
  · rfl
  · rw [List.filter_eq_self]
    intro a ha
    have ha2 : a ∈ (scan30h first [] rest).map (create24hGroup tz) := ha
    obtain ⟨l, _, rfl⟩ := List.mem_map.mp ha2
    rfl

/-- C1: in every continuous-mode (24h) group that `groupRecords`
produces, the records are in chronological ascending order and every
record's timestamp lies within 30 hours (inclusive) of the group's first
-- and earliest -- record's timestamp (the window is anchored at the
group's first record); moreover the continuous groups together contain
exactly the continuous (`is24h`) records of the input, so no continuous
record lies in two groups. -/
theorem groupRecords_continuous_window (tz : Int) (rs : List EyePressureRecord) :
    (∀ g ∈ groupRecords tz rs, g.type = GroupType.h24 →
      List.Sorted dLE g.records ∧
      ∀ f ∈ g.records.head?, ∀ r ∈ g.records,
        f.date ≤ r.date ∧ r.date - f.date ≤ THIRTY_HOURS_MS) ∧
    ((((groupRecords tz rs).filter fun g => g.type == GroupType.h24).map
        RecordGroup.records).flatten).Perm (rs.filter fun r => r.is24h) := by
  constructor
  · intro g hg ht
    obtain ⟨first, rest, l, hs, hl, rfl⟩ := mem_groupRecords_h24 hg ht
    have hsorted := sortByDate_sorted (rs.filter fun r => r.is24h)
    rw [hs] at hsorted
    have hok := scan30h_groups_ok rest first [] (by simp)
      (by simpa using hsorted) l hl
    rw [create24hGroup_records]
    exact ⟨hok.2.1, hok.2.2⟩
  · rw [groupRecords_filter_h24]
    rcases hs : sortByDate (rs.filter fun r => r.is24h) with _ | ⟨first, rest⟩
    · have hnilf : (rs.filter fun r => r.is24h) = [] := by
        have h2 := (sortByDate_perm (rs.filter fun r => r.is24h)).length_eq
        rw [hs] at h2
        simp only [List.length_nil] at h2
        exact List.length_eq_zero.mp h2.symm
      rw [hnilf]
      exact List.Perm.nil
    · show ((List.map RecordGroup.records
        ((scan30h first [] rest).map (create24hGroup tz))).flatten).Perm
          (rs.filter fun r => r.is24h)
      rw [List.map_map]
      have hcomp : (RecordGroup.records ∘ create24hGroup tz) = id := rfl
      rw [hcomp, List.map_id]
      rw [scan30h_flatten]
      rw [List.nil_append, ← hs]
      exact sortByDate_perm _

/-- Instantiation of `groupRecords_continuous_window` at the concrete
mixed input, with the window facts read off at the first continuous
group. -/
theorem groupRecords_continuous_window_witness :
    (List.Sorted dLE wG.records ∧
      ∀ f ∈ wG.records.head?, ∀ r ∈ wG.records,
        f.date ≤ r.date ∧ r.date - f.date ≤ THIRTY_HOURS_MS) ∧
    ((((groupRecords 0 wInput).filter fun g => g.type == GroupType.h24).map
        RecordGroup.records).flatten).Perm (wInput.filter fun r => r.is24h) :=
  ⟨(groupRecords_continuous_window 0 wInput).1 wG (by decide) (by decide),
   (groupRecords_continuous_window 0 wInput).2⟩

/-- C2: when the input contains a regular record, the first output group
is the regular group — fixed id `"regular"`, fixed title, containing
exactly the regular records of the input in ascending date order — every
later group is continuous, the continuous groups appear in strictly
increasing chronological order of their anchor (first) records, and no
second regular group exists. -/
theorem groupRecords_regular_first (tz : Int) (rs : List EyePressureRecord)
    (h : ∃ r ∈ rs, r.is24h = false) :
    ∃ g tail, groupRecords tz rs = g :: tail ∧
      g.id = "regular" ∧ g.title = "常规眼压测量" ∧
      g.type = GroupType.regular ∧
      g.records.Perm (rs.filter fun r => !r.is24h) ∧
      List.Sorted dLE g.records ∧
      (∀ g2 ∈ tail, g2.type = GroupType.h24) ∧
      List.Chain' (fun a b => anchorDate a < anchorDate b) tail ∧
      ((groupRecords tz rs).filter fun x => x.type == GroupType.regular).length
        = 1 := by
  have hlen : 0 < (rs.filter fun r => !r.is24h).length := by
    obtain ⟨r, hr, hflag⟩ := h
    have hmem : r ∈ rs.filter fun r => !r.is24h :=
      List.mem_filter.mpr ⟨hr, by simp [hflag]⟩
    exact List.length_pos.mpr (List.ne_nil_of_mem hmem)
  have hTH : THIRTY_HOURS_MS = 108000000 := rfl
  rw [groupRecords_def, if_pos hlen]
  have htail : ∀ g2 ∈ (match sortByDate (rs.filter fun r => r.is24h) with
      | [] => ([] : List RecordGroup)
      | first :: rest => (scan30h first [] rest).map (create24hGroup tz)),
      g2.type = GroupType.h24 := by
    rcases hs : sortByDate (rs.filter fun r => r.is24h) with _ | ⟨first, rest⟩
    · intro g2 hg2
      exact absurd hg2 (List.not_mem_nil g2)
    · intro g2 hg2
      have hg2m : g2 ∈ (scan30h first [] rest).map (create24hGroup tz) := hg2
      obtain ⟨l, _, rfl⟩ := List.mem_map.mp hg2m
      rfl
  refine ⟨_, _, rfl, rfl, rfl, rfl, sortByDate_perm _, sortByDate_sorted _,
    htail, ?_, ?_⟩
  · rcases hs : sortByDate (rs.filter fun r => r.is24h) with _ | ⟨first, rest⟩
    · exact List.chain'_nil
    · show List.Chain' (fun a b => anchorDate a < anchorDate b)
        ((scan30h first [] rest).map (create24hGroup tz))
      rw [List.chain'_map]
      refine (scan30h_chain rest first []).imp ?_
      intro a b hab
      rw [anchorDate_create24hGroup, anchorDate_create24hGroup]
      omega
  · rw [List.filter_append]
    have hzero : ((match sortByDate (rs.filter fun r => r.is24h) with
        | [] => ([] : List RecordGroup)
        | first :: rest =>
          (scan30h first [] rest).map (create24hGroup tz)).filter
          fun x : RecordGroup => x.type == GroupType.regular) = [] := by
      rw [List.filter_eq_nil_iff]
      intro a ha
      have := htail a ha
      simp [this]
    rw [hzero, List.append_nil]
    rfl

/-- Instantiation of `groupRecords_regular_first` at the concrete mixed
input. -/
theorem groupRecords_regular_first_witness :
    ∃ g tail, groupRecords 0 wInput = g :: tail ∧
      g.id = "regular" ∧ g.title = "常规眼压测量" ∧
      g.type = GroupType.regular ∧
      g.records.Perm (wInput.filter fun r => !r.is24h) ∧
      List.Sorted dLE g.records ∧
      (∀ g2 ∈ tail, g2.type = GroupType.h24) ∧
      List.Chain' (fun a b => anchorDate a < anchorDate b) tail ∧
      ((groupRecords 0 wInput).filter fun x =>
        x.type == GroupType.regular).length = 1 :=
  groupRecords_regular_first 0 wInput ⟨wRecR, by decide, by decide⟩

/-! ### Injectivity of the decimal id rendering -/

theorem digitsRev_eq_digits :
    ∀ (fuel n : Nat), n ≤ fuel → digitsRev fuel n = Nat.digits 10 n := by
  intro fuel
  induction fuel with
  | zero =>
    intro n hn
    have : n = 0 := Nat.le_zero.mp hn
    subst this
    rw [Nat.digits_zero]
    rfl
  | succ fuel ih =>
    intro n hn
    by_cases h0 : n = 0
    · subst h0
      rw [Nat.digits_zero]
      rfl
    · rw [digitsRev, if_neg h0]
      rw [Nat.digits_def' (by norm_num : (1:Nat) < 10) (Nat.pos_of_ne_zero h0)]
      congr 1
      refine ih (n / 10) ?_
      have : n / 10 < n := Nat.div_lt_self (Nat.pos_of_ne_zero h0) (by norm_num)
      omega

theorem digitChar_inj_lt :
    ∀ a, a < 10 → ∀ b, b < 10 → Nat.digitChar a = Nat.digitChar b → a = b := by
  decide

theorem map_digitChar_inj :
    ∀ (l1 l2 : List Nat), (∀ x ∈ l1, x < 10) → (∀ x ∈ l2, x < 10) →
      l1.map Nat.digitChar = l2.map Nat.digitChar → l1 = l2 := by
  intro l1
  induction l1 with
  | nil =>
    intro l2 _ _ h
    cases l2 with
    | nil => rfl
    | cons b t => exact absurd h (by simp)
  | cons a t1 ih =>
    intro l2 h1 h2 h
    cases l2 with
    | nil => exact absurd h (by simp)
    | cons b t2 =>
      simp only [List.map_cons, List.cons.injEq] at h
      have hab : a = b :=
        digitChar_inj_lt a (h1 a (by simp)) b (h2 b (by simp)) h.1
      have ht : t1 = t2 :=
        ih t2 (fun x hx => h1 x (by simp [hx])) (fun x hx => h2 x (by simp [hx]))
          h.2
      rw [hab, ht]

theorem natDecimal_eq_digits (n : Nat) (hn : n ≠ 0) :
    natDecimal n = String.mk (((Nat.digits 10 n).reverse).map Nat.digitChar) := by
  rw [natDecimal, if_neg hn, digitsRev_eq_digits n n (le_refl n)]

theorem natDecimal_ne_natDecimal_zero (n : Nat) (hn : n ≠ 0) :
    natDecimal n ≠ natDecimal 0 := by
  intro h
  rw [natDecimal_eq_digits n hn] at h
  have h2 : ((Nat.digits 10 n).reverse).map Nat.digitChar = ['0'] :=
    congrArg String.data h
  rcases hrev : (Nat.digits 10 n).reverse with _ | ⟨d, t⟩
  · rw [hrev] at h2
    exact absurd h2 (by decide)
  · rw [hrev] at h2
    injection h2 with hc ht
    have hdigit : d ∈ Nat.digits 10 n :=
      List.mem_reverse.mp (by rw [hrev]; simp)
    have hdlt : d < 10 := Nat.digits_lt_base (by norm_num) hdigit
    have hd0 : d = 0 := by
      refine digitChar_inj_lt d hdlt 0 (by norm_num) ?_
      rw [hc]
      rfl
    subst hd0
    have ht0 : t = [] := by
      cases t with
      | nil => rfl
      | cons a b => exact absurd ht (by simp)
    subst ht0
    have hform : Nat.digits 10 n = [0] := by
      rw [← List.reverse_reverse (Nat.digits 10 n), hrev]
      rfl
    have h5 : (Nat.digits 10 n).getLast? = some 0 := by
      rw [hform]
      rfl
    rw [List.getLast?_eq_getLast (Nat.digits 10 n)
      (Nat.digits_ne_nil_iff_ne_zero.mpr hn)] at h5
    injection h5 with h7
    exact Nat.getLast_digit_ne_zero 10 hn h7

theorem natDecimal_inj : ∀ {m n : Nat}, natDecimal m = natDecimal n → m = n := by
  intro m n h
  by_cases hm : m = 0 <;> by_cases hn : n = 0
  · rw [hm, hn]
  · exfalso
    subst hm
    exact natDecimal_ne_natDecimal_zero n hn h.symm
  · exfalso
    subst hn
    exact natDecimal_ne_natDecimal_zero m hm h
  · rw [natDecimal_eq_digits m hm, natDecimal_eq_digits n hn] at h
    have h2 : ((Nat.digits 10 m).reverse).map Nat.digitChar =
        ((Nat.digits 10 n).reverse).map Nat.digitChar := String.ext_iff.mp h
    have h3 : (Nat.digits 10 m).reverse = (Nat.digits 10 n).reverse := by
      refine map_digitChar_inj _ _ ?_ ?_ h2
      · intro x hx
        exact Nat.digits_lt_base (by norm_num) (List.mem_reverse.mp hx)
      · intro x hx
        exact Nat.digits_lt_base (by norm_num) (List.mem_reverse.mp hx)
    have h4 : Nat.digits 10 m = Nat.digits 10 n := by
      rw [← List.reverse_reverse (Nat.digits 10 m), h3, List.reverse_reverse]
    exact Nat.digits.injective 10 h4

theorem string_append_cancel_left (s a b : String) (h : s ++ a = s ++ b) :
    a = b := by
  apply String.ext
  have h2 := congrArg String.data h
  rw [String.data_append, String.data_append] at h2
  exact List.append_cancel_left h2

theorem digitChar_ne_dash : ∀ d, d < 10 → Nat.digitChar d ≠ Char.ofNat 45 := by
  decide

theorem natDecimal_head_not_dash (n : Nat) :
    ∃ c r2, (natDecimal n).data = c :: r2 ∧ c ≠ Char.ofNat 45 := by
  by_cases hn : n = 0
  · subst hn
    exact ⟨Char.ofNat 48, [], rfl, by decide⟩
  · rw [natDecimal_eq_digits n hn]
    rcases hrev : (Nat.digits 10 n).reverse with _ | ⟨d, t⟩
    · exfalso
      have : Nat.digits 10 n = [] := by
        rw [← List.reverse_reverse (Nat.digits 10 n), hrev]
        rfl
      exact Nat.digits_ne_nil_iff_ne_zero.mpr hn this
    · refine ⟨Nat.digitChar d, t.map Nat.digitChar, rfl, ?_⟩
      have hdigit : d ∈ Nat.digits 10 n :=
        List.mem_reverse.mp (by rw [hrev]; simp)
      have hdlt : d < 10 := Nat.digits_lt_base (by norm_num) hdigit
      exact digitChar_ne_dash d hdlt

theorem intDecimal_injective : Function.Injective intDecimal := by
  intro a b h
  cases a with
  | ofNat m =>
    cases b with
    | ofNat n => exact congrArg Int.ofNat (natDecimal_inj h)
    | negSucc n =>
      exfalso
      obtain ⟨c, r2, hdata, hc⟩ := natDecimal_head_not_dash m
      have h1 : natDecimal m = "-" ++ natDecimal (n + 1) := h
      have h2 := congrArg String.data h1
      rw [String.data_append, hdata] at h2
      rw [show ("-" : String).data = [Char.ofNat 45] from rfl] at h2
      injection h2 with h3 _
      exact hc h3
  | negSucc m =>
    cases b with
    | ofNat n =>
      exfalso
      obtain ⟨c, r2, hdata, hc⟩ := natDecimal_head_not_dash n
      have h1 : "-" ++ natDecimal (m + 1) = natDecimal n := h
      have h2 := congrArg String.data h1
      rw [String.data_append, hdata] at h2
      rw [show ("-" : String).data = [Char.ofNat 45] from rfl] at h2
      injection h2 with h3 _
      exact hc h3.symm
    | negSucc n =>
      have h1 : "-" ++ natDecimal (m + 1) = "-" ++ natDecimal (n + 1) := h
      have h2 := natDecimal_inj (string_append_cancel_left "-" _ _ h1)
      have h3 : m = n := by omega
      rw [h3]

theorem regular_id_ne_h24_id (x : Int) :
    ("regular" : String) ≠ "24h-" ++ intDecimal x := by
  intro h
  have h2 := congrArg String.data h
  rw [String.data_append] at h2
  rw [show ("24h-" : String).data =
    [Char.ofNat 50, Char.ofNat 52, Char.ofNat 104, Char.ofNat 45] from rfl] at h2
  rw [show ("regular" : String).data =
    [Char.ofNat 114, Char.ofNat 101, Char.ofNat 103, Char.ofNat 117,
     Char.ofNat 108, Char.ofNat 97, Char.ofNat 114] from rfl] at h2
  injection h2 with h3 _
  exact absurd h3 (by decide)

/-- C8: the ids of the groups `groupRecords` returns are pairwise
distinct: each continuous group's id is `"24h-"` followed by the decimal
rendering of its first (earliest) record's timestamp — distinct anchors
give distinct ids — and the regular group's fixed id `"regular"` never
collides with a continuous id. -/
theorem groupRecords_ids_nodup (tz : Int) (rs : List EyePressureRecord) :
    ((groupRecords tz rs).map RecordGroup.id).Nodup ∧
    (∀ g ∈ groupRecords tz rs, g.type = GroupType.h24 →
      g.id = "24h-" ++ intDecimal (anchorDate g)) ∧
    (∀ g ∈ groupRecords tz rs, g.type = GroupType.regular →
      g.id = "regular") := by
  have hTH : THIRTY_HOURS_MS = 108000000 := rfl
  refine ⟨?_, ?_, ?_⟩
  · rw [groupRecords_def, List.map_append, List.nodup_append]
    refine ⟨?_, ?_, ?_⟩
    · by_cases hc : 0 < (rs.filter fun r => !r.is24h).length
      · rw [if_pos hc]
        simp
      · rw [if_neg hc]
        simp
    · rcases hs : sortByDate (rs.filter fun r => r.is24h) with _ | ⟨first, rest⟩
      · exact List.nodup_nil
      · show (((scan30h first [] rest).map (create24hGroup tz)).map
          RecordGroup.id).Nodup
        rw [List.map_map]
        have hpair : List.Pairwise
            (fun l1 l2 => listAnchor l1 < listAnchor l2)
            (scan30h first [] rest) := by
          haveI : IsTrans (List EyePressureRecord)
              (fun l1 l2 => listAnchor l1 < listAnchor l2) :=
            ⟨fun _ _ _ h1 h2 => lt_trans h1 h2⟩
          refine List.chain'_iff_pairwise.mp ?_
          refine (scan30h_chain rest first []).imp ?_
          intro a b hab
          omega
        refine List.Pairwise.map _ ?_ hpair
        intro l1 l2 hlt heq
        have hids : ("24h-" : String) ++ intDecimal (listAnchor l1) =
            "24h-" ++ intDecimal (listAnchor l2) := heq
        have := intDecimal_injective
          (string_append_cancel_left "24h-" _ _ hids)
        omega
    · rw [List.disjoint_left]
      intro a ha hb
      have ha2 : a = "regular" := by
        by_cases hc : 0 < (rs.filter fun r => !r.is24h).length
        · rw [if_pos hc] at ha
          simpa using ha
        · rw [if_neg hc] at ha
          exact absurd ha (by simp)
      subst ha2
      rcases hs : sortByDate (rs.filter fun r => r.is24h) with _ | ⟨first, rest⟩
      · rw [hs] at hb
        have hb2 : ("regular" : String) ∈ ([] : List String) := hb
        exact absurd hb2 (by simp)
      · rw [hs] at hb
        have hb2 : ("regular" : String) ∈
            ((scan30h first [] rest).map (create24hGroup tz)).map
              RecordGroup.id := hb
        rw [List.map_map] at hb2
        obtain ⟨l, _, hl⟩ := List.mem_map.mp hb2
        exact regular_id_ne_h24_id (listAnchor l) hl.symm
  · intro g hg ht
    obtain ⟨first, rest, l, hs, hl, rfl⟩ := mem_groupRecords_h24 hg ht
    rfl
  · intro g hg ht
    obtain ⟨_, rfl⟩ := mem_groupRecords_regular hg ht
    rfl

/-- Instantiation of `groupRecords_ids_nodup` at the concrete mixed
input, reading the id law off the first continuous group. -/
theorem groupRecords_ids_nodup_witness :
    ((groupRecords 0 wInput).map RecordGroup.id).Nodup ∧
    wG.id = "24h-" ++ intDecimal (anchorDate wG) :=
  ⟨(groupRecords_ids_nodup 0 wInput).1,
   (groupRecords_ids_nodup 0 wInput).2.1 wG (by decide) (by decide)⟩

/-! ### Chart transform lemmas -/

theorem minutesFrom_self (t : Int) : minutesFrom t t = 0 := by
  unfold minutesFrom
  rw [sub_self]
  decide

theorem minutesFrom_bounds (t0 t : Int) :
    -30000 ≤ (t - t0) - 60000 * minutesFrom t0 t ∧
    (t - t0) - 60000 * minutesFrom t0 t < 30000 := by
  unfold minutesFrom
  rw [Int.fdiv_eq_ediv _ (by norm_num)]
  omega

theorem minutesFrom_mono (t0 t1 t2 : Int) (h : t1 ≤ t2) :
    minutesFrom t0 t1 ≤ minutesFrom t0 t2 := by
  unfold minutesFrom
  rw [Int.fdiv_eq_ediv _ (by norm_num), Int.fdiv_eq_ediv _ (by norm_num)]
  exact Int.ediv_le_ediv (by norm_num) (by omega)


theorem toChartData_nil (tz : Int) (g : RecordGroup) (hr : g.records = []) :
    toChartData tz g = [] := by
  rw [toChartData, hr]
  rfl

theorem toChartData_eq_map (tz : Int) (g : RecordGroup)
    (first : EyePressureRecord) (t : List EyePressureRecord)
    (hr : g.records = first :: t) :
    toChartData tz g = (first :: t).map (fun record =>
      { label := if g.type = GroupType.h24 then
          (if getDate tz record.date ≠ getDate tz first.date then
            "+1 " ++ formatTime tz record.date
          else formatTime tz record.date)
        else formatDate tz record.date,
        left := record.left,
        right := record.right,
        average := (record.left + record.right) / 2,
        dateStr := record.date,
        minutesFromStart := minutesFrom first.date record.date }) := by
  rw [toChartData, hr]
  rfl

/-- C5: `toChartData` yields exactly one chart point per record of the
group, in the group's own order (the point at each index carries the
record at the same index); the empty group yields the empty sequence;
and the first point of a non-empty group has `minutesFromStart = 0`. -/
theorem toChartData_shape (tz : Int) (g : RecordGroup) :
    (g.records = [] → toChartData tz g = []) ∧
    (toChartData tz g).length = g.records.length ∧
    (∀ i : Nat,
      ((toChartData tz g)[i]?).map ChartDataPoint.dateStr =
        (g.records[i]?).map EyePressureRecord.date ∧
      ((toChartData tz g)[i]?).map ChartDataPoint.left =
        (g.records[i]?).map EyePressureRecord.left ∧
      ((toChartData tz g)[i]?).map ChartDataPoint.right =
        (g.records[i]?).map EyePressureRecord.right) ∧
    (∀ p ∈ (toChartData tz g).head?, p.minutesFromStart = 0) := by
  rcases hr : g.records with _ | ⟨first, t⟩
  · have he : toChartData tz g = [] := toChartData_nil tz g hr
    refine ⟨fun _ => he, ?_, ?_, ?_⟩
    · rw [he]
      rfl
    · intro i
      rw [he]
      exact ⟨rfl, rfl, rfl⟩
    · intro p hp
      rw [he] at hp
      exact absurd hp (by simp)
  · rw [toChartData_eq_map tz g first t hr]
    refine ⟨?_, by rw [List.length_map], ?_, ?_⟩
    · intro h
      exact absurd h (by simp)
    · intro i
      rw [List.getElem?_map]
      rcases (first :: t)[i]? with _ | r
      · exact ⟨rfl, rfl, rfl⟩
      · exact ⟨rfl, rfl, rfl⟩
    · intro p hp
      simp only [List.map_cons, List.head?_cons, Option.mem_def,
        Option.some.injEq] at hp
      subst hp
      exact minutesFrom_self first.date

/-- Instantiation of `toChartData_shape`: the empty group, the concrete
continuous group and its first point. -/
theorem toChartData_shape_witness :
    toChartData 0 wEmptyG = [] ∧
    (toChartData 0 wG).length = wG.records.length ∧
    wPointA.minutesFromStart = 0 :=
  ⟨(toChartData_shape 0 wEmptyG).1 rfl,
   (toChartData_shape 0 wG).2.1,
   (toChartData_shape 0 wG).2.2.2 wPointA (Option.mem_def.mpr rfl)⟩

/-- C6: every chart point's `average` is exactly `(left + right) / 2` of
its record's readings, at full (rational) precision. -/
theorem toChartData_average (tz : Int) (g : RecordGroup) :
    ∀ i : Nat, ((toChartData tz g)[i]?).map ChartDataPoint.average =
      (g.records[i]?).map (fun r => (r.left + r.right) / 2) := by
  intro i
  rcases hr : g.records with _ | ⟨first, t⟩
  · rw [toChartData_nil tz g hr]
    rfl
  · rw [toChartData_eq_map tz g first t hr, List.getElem?_map]
    rcases (first :: t)[i]? with _ | r
    · rfl
    · rfl

/-- C4: for a chronologically sorted group, each point's
`minutesFromStart` is the elapsed time from the group's first record to
the point's record, in minutes, rounded to the nearest whole minute
(within half a minute either way, halves rounded up — the bounds below
determine it uniquely), and the sequence of `minutesFromStart` values is
non-decreasing across the points. -/
theorem toChartData_minutes (tz : Int) (g : RecordGroup)
    (hsorted : List.Sorted dLE g.records) :
    (∀ i : Nat, ∀ p ∈ (toChartData tz g)[i]?, ∀ r ∈ g.records[i]?,
      ∀ f ∈ g.records.head?,
        -30000 ≤ (r.date - f.date) - 60000 * p.minutesFromStart ∧
        (r.date - f.date) - 60000 * p.minutesFromStart < 30000) ∧
    List.Pairwise (fun a b => a ≤ b)
      ((toChartData tz g).map ChartDataPoint.minutesFromStart) := by
  rcases hr : g.records with _ | ⟨first, t⟩
  · refine ⟨?_, ?_⟩
    · intro i p hp
      rw [toChartData_nil tz g hr] at hp
      exact absurd hp (by simp)
    · rw [toChartData_nil tz g hr]
      exact List.Pairwise.nil
  · rw [toChartData_eq_map tz g first t hr]
    rw [hr] at hsorted
    refine ⟨?_, ?_⟩
    · intro i p hp r hri f hfm
      simp only [List.head?_cons, Option.mem_def, Option.some.injEq] at hfm
      subst hfm
      rw [List.getElem?_map] at hp
      rcases hopt : (first :: t)[i]? with _ | r2
      · rw [hopt] at hp
        exact absurd hp (by simp)
      · rw [hopt] at hp hri
        simp only [Option.map_some', Option.mem_def, Option.some.injEq]
          at hp hri
        subst hri
        subst hp
        exact minutesFrom_bounds first.date r2.date
    · rw [List.map_map, List.pairwise_map]
      refine hsorted.imp ?_
      intro a b hab
      exact minutesFrom_mono first.date a.date b.date hab

/-- Instantiation of `toChartData_minutes` at the concrete sorted
continuous group, reading the rounding bound off the second point. -/
theorem toChartData_minutes_witness :
    (-30000 ≤ (wRecB.date - wRecA.date) -
        60000 * wPointB.minutesFromStart ∧
      (wRecB.date - wRecA.date) -
        60000 * wPointB.minutesFromStart < 30000) ∧
    List.Pairwise (fun a b => a ≤ b)
      ((toChartData 0 wG).map ChartDataPoint.minutesFromStart) :=
  ⟨(toChartData_minutes 0 wG (by decide)).1 1 wPointB
      (Option.mem_def.mpr rfl) wRecB (Option.mem_def.mpr rfl)
      wRecA (Option.mem_def.mpr rfl),
   (toChartData_minutes 0 wG (by decide)).2⟩


/-! ### Record-source boundary -/

/-- C7: at the record-source boundary, a raw page whose date value is
missing is silently dropped — its transformation is `none`, the record
list skips it, and every record that reaches any group arises from a
page whose transformation succeeded — while a page with a date has every
other missing field replaced by a benign default (empty string, zero, or
false) rather than causing an error. -/
theorem transformNotionPage_boundary (pages : List NotionPage)
    (page : NotionPage) (tz : Int) :
    (page.date = none → transformNotionPage page = none ∧
      fetchAllRecords (page :: pages) = fetchAllRecords pages) ∧
    (∀ d, page.date = some d → transformNotionPage page =
      some { id := page.id, name := page.name.getD "", date := d,
             left := page.left.getD 0, right := page.right.getD 0,
             is24h := page.is24h.getD false, note := page.note.getD "" }) ∧
    (∀ g ∈ groupRecords tz (fetchAllRecords pages), ∀ r ∈ g.records,
      ∃ p ∈ pages, transformNotionPage p = some r) := by
  refine ⟨?_, ?_, ?_⟩
  · intro h
    have h1 : transformNotionPage page = none := by
      rw [transformNotionPage, h]
    refine ⟨h1, ?_⟩
    rw [fetchAllRecords, fetchAllRecords, List.filterMap_cons, h1]
  · intro d hd
    rw [transformNotionPage, hd]
  · intro g hg r hr
    have hrs : r ∈ fetchAllRecords pages :=
      mem_records_of_mem_groupRecords hg hr
    exact List.mem_filterMap.mp hrs

/-- Instantiation of `transformNotionPage_boundary` at a concrete
dateless page and a concrete defaulted page. -/
theorem transformNotionPage_boundary_witness :
    (transformNotionPage wPageNoDate = none ∧
      fetchAllRecords (wPageNoDate :: [wPageFull]) =
        fetchAllRecords [wPageFull]) ∧
    transformNotionPage wPageFull = some wRecF ∧
    (∃ p ∈ [wPageFull], transformNotionPage p = some wRecF) :=
  ⟨(transformNotionPage_boundary [wPageFull] wPageNoDate 0).1 rfl,
   (transformNotionPage_boundary [wPageFull] wPageFull 0).2.1 5000 rfl,
   (transformNotionPage_boundary [wPageFull] wPageFull 0).2.2 wRegG
     (by decide) wRecF (by decide)⟩

/-! ### The day-of-month step of the civil-date algorithm -/

theorem civil_day_eq (z : Int) :
    (civilFromDays z).day = domI (doyOf (doeOf z)) := rfl

theorem ofNat_fdiv_ofNat (a b : Nat) :
    ((a : Int)).fdiv ((b : Int)) = ((a / b : Nat) : Int) := by
  cases a with
  | zero =>
    rw [Nat.zero_div]
    rfl
  | succ m => rfl

theorem gI_ofNat (n : Nat) :
    gI (n : Int) = (n : Int) - ((n / 1460 : Nat) : Int) +
      ((n / 36524 : Nat) : Int) - ((n / 146096 : Nat) : Int) := by
  unfold gI
  rw [show (1460 : Int) = ((1460 : Nat) : Int) from rfl,
      show (36524 : Int) = ((36524 : Nat) : Int) from rfl,
      show (146096 : Int) = ((146096 : Nat) : Int) from rfl,
      ofNat_fdiv_ofNat, ofNat_fdiv_ofNat, ofNat_fdiv_ofNat]

theorem startI_ofNat (y : Nat) : startI (y : Int) = ((startN y : Nat) : Int) := by
  unfold startI startN
  rw [show (4 : Int) = ((4 : Nat) : Int) from rfl,
      show (100 : Int) = ((100 : Nat) : Int) from rfl,
      ofNat_fdiv_ofNat, ofNat_fdiv_ofNat]
  omega

set_option maxRecDepth 4000

theorem startN_facts : ∀ y : Nat, y < 400 →
    startN y < startN (y + 1) ∧ 365 ≤ startN (y + 1) - startN y ∧
    startN (y + 1) - startN y ≤ 366 ∧ startN (y + 1) ≤ 146096 := by
  decide

theorem gI_start_facts : ∀ y : Nat, y < 400 →
    gI ((startN y : Nat) : Int) = 365 * (y : Int) ∧
    gI (((startN (y + 1) - 1 : Nat) : Int)) ≤ 365 * (y : Int) + 364 := by
  decide

theorem domI_facts : ∀ d : Nat, d ≤ 365 →
    1 ≤ domI (d : Int) ∧ domI (d : Int) ≤ 31 ∧
    (364 ≤ d → 28 ≤ domI (d : Int)) ∧
    (d < 365 → (domI ((d + 1 : Nat) : Int) = domI (d : Int) + 1 ∨
      (domI ((d + 1 : Nat) : Int) = 1 ∧ 28 ≤ domI (d : Int)))) := by
  decide

theorem gI_mono_step (n : Nat) (h : n + 1 ≤ 146096) :
    gI (n : Int) ≤ gI ((n + 1 : Nat) : Int) := by
  rw [gI_ofNat, gI_ofNat]
  rw [Nat.succ_div n 1460, Nat.succ_div n 36524, Nat.succ_div n 146096]
  by_cases h3 : (146096 : Nat) ∣ (n + 1)
  · have h146 : n + 1 = 146096 := by
      have h4 := Nat.le_of_dvd (by omega) h3
      omega
    have h1 : ¬ ((1460 : Nat) ∣ (n + 1)) := by
      rw [h146]
      decide
    have h2 : (36524 : Nat) ∣ (n + 1) := by
      rw [h146]
      decide
    rw [if_pos h3, if_neg h1, if_pos h2]
    push_cast
    omega
  · rw [if_neg h3]
    by_cases h1 : (1460 : Nat) ∣ (n + 1)
    · by_cases h2 : (36524 : Nat) ∣ (n + 1)
      · rw [if_pos h1, if_pos h2]
        push_cast
        omega
      · rw [if_pos h1, if_neg h2]
        push_cast
        omega
    · by_cases h2 : (36524 : Nat) ∣ (n + 1)
      · rw [if_neg h1, if_pos h2]
        push_cast
        omega
      · rw [if_neg h1, if_neg h2]
        push_cast
        omega

theorem gI_mono : ∀ (b a : Nat), a ≤ b → b ≤ 146096 →
    gI (a : Int) ≤ gI (b : Int) := by
  intro b
  induction b with
  | zero =>
    intro a ha _
    have h0 : a = 0 := Nat.le_zero.mp ha
    rw [h0]
  | succ m ih =>
    intro a ha hb
    by_cases he : a = m + 1
    · rw [he]
    · have h1 := ih a (by omega) (by omega)
      exact le_trans h1 (gI_mono_step m (by omega))

theorem exists_year : ∀ n : Nat, n < 146096 →
    ∃ y : Nat, y < 400 ∧ startN y ≤ n ∧ n < startN (y + 1) := by
  intro n
  induction n with
  | zero =>
    intro _
    exact ⟨0, by norm_num, by decide, by decide⟩
  | succ m ih =>
    intro h
    obtain ⟨y, hy, h1, h2⟩ := ih (by omega)
    by_cases hcase : m + 1 < startN (y + 1)
    · exact ⟨y, hy, by omega, hcase⟩
    · have heq : m + 1 = startN (y + 1) := by omega
      have hy4 : y + 1 < 400 := by
        by_contra hcon
        have hy400 : y + 1 = 400 := by omega
        rw [hy400] at heq
        have hs400 : startN 400 = 146096 := by decide
        omega
      refine ⟨y + 1, hy4, by omega, ?_⟩
      have := (startN_facts (y + 1) hy4).1
      omega

theorem yoe_char : ∀ n : Nat, n ≤ 146096 →
    ∃ y : Nat, y < 400 ∧ startN y ≤ n ∧ (n < startN (y + 1) ∨ n = 146096) ∧
      yoeOf (n : Int) = (y : Int) ∧
      doyOf (n : Int) = ((n - startN y : Nat) : Int) ∧
      (n - startN y : Nat) ≤ 365 := by
  intro n hn
  by_cases hn' : n = 146096
  · subst hn'
    exact ⟨399, by norm_num, by decide, Or.inr rfl, by decide, by decide,
      by decide⟩
  · have hn2 : n < 146096 := by omega
    obtain ⟨y, hy, h1, h2⟩ := exists_year n hn2
    have hyoe : yoeOf (n : Int) = (y : Int) := by
      have hlow : 365 * (y : Int) ≤ gI (n : Int) := by
        have hst := (gI_start_facts y hy).1
        have hmono := gI_mono n (startN y) h1 (by omega)
        omega
      have hhigh : gI (n : Int) ≤ 365 * (y : Int) + 364 := by
        have h366 := (gI_start_facts y hy).2
        have hb1 : n ≤ startN (y + 1) - 1 := by omega
        have hb2 : startN (y + 1) - 1 ≤ 146096 := by
          have := (startN_facts y hy).2.2.2
          omega
        have hmono := gI_mono (startN (y + 1) - 1) n hb1 hb2
        omega
      unfold yoeOf
      rw [Int.fdiv_eq_ediv _ (by norm_num)]
      omega
    have hdoy : doyOf (n : Int) = ((n - startN y : Nat) : Int) := by
      unfold doyOf
      rw [hyoe, startI_ofNat]
      omega
    have hbound : (n - startN y) ≤ 365 := by
      have := (startN_facts y hy).2.2.1
      omega
    exact ⟨y, hy, h1, Or.inl h2, hyoe, hdoy, hbound⟩

theorem startN_mono : ∀ (b a : Nat), a ≤ b → b ≤ 400 → startN a ≤ startN b := by
  intro b
  induction b with
  | zero =>
    intro a ha _
    have h0 : a = 0 := Nat.le_zero.mp ha
    rw [h0]
  | succ m ih =>
    intro a ha hb
    by_cases he : a = m + 1
    · rw [he]
    · have h1 := ih a (by omega) (by omega)
      have h2 := (startN_facts m (by omega)).1
      omega

theorem dom_step_nat (n : Nat) (h : n + 1 ≤ 146096) :
    (domI (doyOf ((n + 1 : Nat) : Int)) = domI (doyOf (n : Int)) + 1 ∨
      (domI (doyOf ((n + 1 : Nat) : Int)) = 1 ∧
        28 ≤ domI (doyOf (n : Int)))) ∧
    1 ≤ domI (doyOf (n : Int)) ∧ domI (doyOf (n : Int)) ≤ 31 := by
  obtain ⟨y, hy, h1, h2, hyoe, hdoy, hbound⟩ := yoe_char n (by omega)
  have h2' : n < startN (y + 1) := by
    rcases h2 with h2 | h2
    · exact h2
    · omega
  have hbounds : 1 ≤ domI (doyOf (n : Int)) ∧ domI (doyOf (n : Int)) ≤ 31 := by
    rw [hdoy]
    exact ⟨(domI_facts _ hbound).1, (domI_facts _ hbound).2.1⟩
  refine ⟨?_, hbounds.1, hbounds.2⟩
  by_cases hy399 : y = 399 ∧ n + 1 = 146096
  · have hn : n = 146095 := by omega
    subst hn
    decide
  · obtain ⟨y2, hy2, h1b, h2b, hyoe2, hdoy2, hbound2⟩ := yoe_char (n + 1) h
    by_cases hlt : n + 1 < startN (y + 1)
    · have h2b' : n + 1 < startN (y2 + 1) := by
        rcases h2b with h2b | h2b
        · exact h2b
        · exfalso
          have := (startN_facts y hy).2.2.2
          omega
      have hyeq : y2 = y := by
        by_contra hne
        rcases Nat.lt_or_ge y2 y with hc | hc
        · have hm : startN (y2 + 1) ≤ startN y :=
            startN_mono y (y2 + 1) (by omega) (by omega)
          omega
        · have hc2 : y < y2 := by omega
          have hm : startN (y + 1) ≤ startN y2 :=
            startN_mono y2 (y + 1) (by omega) (by omega)
          omega
      rw [hyeq] at hdoy2
      have hstep : (n + 1 - startN y) = (n - startN y) + 1 := by omega
      have hlt365 : (n - startN y) < 365 := by
        have := (startN_facts y hy).2.2.1
        omega
      have hfact := (domI_facts (n - startN y) (by omega)).2.2.2 hlt365
      rw [hdoy, hdoy2, hstep]
      exact hfact
    · have heq : n + 1 = startN (y + 1) := by omega
      have hy1 : y + 1 < 400 := by
        by_contra hcon
        have hy400 : y + 1 = 400 := by omega
        rw [hy400] at heq
        have hs : startN 400 = 146096 := by decide
        exact hy399 ⟨by omega, by omega⟩
      have h2b' : n + 1 < startN (y2 + 1) := by
        rcases h2b with h2b | h2b
        · exact h2b
        · exfalso
          have hm : startN (y + 1) ≤ startN 399 :=
            startN_mono 399 (y + 1) (by omega) (by norm_num)
          have hs399 : startN 399 = 145731 := by decide
          omega
      have hyeq : y2 = y + 1 := by
        by_contra hne
        rcases Nat.lt_or_ge y2 (y + 1) with hc | hc
        · have hm : startN (y2 + 1) ≤ startN (y + 1) :=
            startN_mono (y + 1) (y2 + 1) (by omega) (by omega)
          omega
        · have hc2 : y + 1 < y2 := by omega
          have hm : startN (y + 1 + 1) ≤ startN y2 :=
            startN_mono y2 (y + 1 + 1) (by omega) (by omega)
          have hstrict := (startN_facts (y + 1) hy1).1
          omega
      rw [hyeq] at hdoy2
      have hdzero : (n + 1 - startN (y + 1)) = 0 := by omega
      have hd364 : 364 ≤ n - startN y := by
        have := (startN_facts y hy).2.1
        omega
      rw [hdoy, hdoy2, hdzero]
      refine Or.inr ⟨by decide, ?_⟩
      exact (domI_facts _ hbound).2.2.1 (by omega)

theorem doeOf_emod (z : Int) : doeOf z = (z + 719468) % 146097 := by
  unfold doeOf
  have h := Int.fdiv_add_fmod (z + 719468) 146097
  have h2 := Int.fmod_eq_emod (z + 719468) (by norm_num : (0:Int) ≤ 146097)
  omega

theorem doeOf_bounds (z : Int) : 0 ≤ doeOf z ∧ doeOf z ≤ 146096 := by
  rw [doeOf_emod]
  have h1 := Int.emod_nonneg (z + 719468) (by norm_num : (146097:Int) ≠ 0)
  have h2 := Int.emod_lt_of_pos (z + 719468) (by norm_num : (0:Int) < 146097)
  omega

theorem doeOf_step (z : Int) :
    (doeOf z ≤ 146095 ∧ doeOf (z + 1) = doeOf z + 1) ∨
    (doeOf z = 146096 ∧ doeOf (z + 1) = 0) := by
  rw [doeOf_emod, doeOf_emod]
  have h1 := Int.emod_nonneg (z + 719468) (by norm_num : (146097:Int) ≠ 0)
  have h2 := Int.emod_lt_of_pos (z + 719468) (by norm_num : (0:Int) < 146097)
  have h3 : z + 1 + 719468 = (z + 719468) + 1 := by ring
  rw [h3]
  omega

theorem dayOf_succ (z : Int) :
    ((civilFromDays (z + 1)).day = (civilFromDays z).day + 1 ∨
      ((civilFromDays (z + 1)).day = 1 ∧ 28 ≤ (civilFromDays z).day)) ∧
    1 ≤ (civilFromDays z).day ∧ (civilFromDays z).day ≤ 31 := by
  rw [civil_day_eq, civil_day_eq]
  rcases doeOf_step z with ⟨hle, hstep⟩ | ⟨heq, hstep⟩
  · obtain ⟨h0, _⟩ := doeOf_bounds z
    have hfacts := dom_step_nat (doeOf z).toNat (by omega)
    have hcast : (((doeOf z).toNat : Nat) : Int) = doeOf z :=
      Int.toNat_of_nonneg h0
    push_cast at hfacts
    rw [hcast] at hfacts
    rw [hstep]
    exact hfacts
  · rw [heq, hstep]
    refine ⟨Or.inr ⟨by decide, by decide⟩, by decide, by decide⟩

theorem dayOf_step_ne (z : Int) :
    (civilFromDays (z + 1)).day ≠ (civilFromDays z).day ∧
    (civilFromDays (z + 2)).day ≠ (civilFromDays z).day := by
  have h1 := dayOf_succ z
  have h2 := dayOf_succ (z + 1)
  have hz2 : z + 1 + 1 = z + 2 := by ring
  rw [hz2] at h2
  obtain ⟨hs1, hb1, hb1b⟩ := h1
  obtain ⟨hs2, hb2, hb2b⟩ := h2
  constructor
  · rcases hs1 with h | ⟨h, hge⟩ <;> omega
  · rcases hs1 with h | ⟨h, hge⟩ <;> rcases hs2 with h' | ⟨h', hge'⟩ <;> omega

theorem epochDay_window (tz t0 t : Int) (h0 : t0 ≤ t)
    (h1 : t - t0 ≤ THIRTY_HOURS_MS) :
    epochDay tz t0 ≤ epochDay tz t ∧ epochDay tz t ≤ epochDay tz t0 + 2 := by
  have hTH : THIRTY_HOURS_MS = 108000000 := rfl
  unfold epochDay localMs dayMs
  rw [Int.fdiv_eq_ediv _ (by norm_num), Int.fdiv_eq_ediv _ (by norm_num)]
  omega

theorem getDate_window_iff (tz t0 t : Int) (h0 : t0 ≤ t)
    (h1 : t - t0 ≤ THIRTY_HOURS_MS) :
    (getDate tz t = getDate tz t0 ↔ epochDay tz t = epochDay tz t0) ∧
    (civilOf tz t = civilOf tz t0 ↔ epochDay tz t = epochDay tz t0) := by
  obtain ⟨ha, hb⟩ := epochDay_window tz t0 t h0 h1
  unfold getDate civilOf
  have hdiff : epochDay tz t = epochDay tz t0 ∨
      epochDay tz t = epochDay tz t0 + 1 ∨
      epochDay tz t = epochDay tz t0 + 2 := by omega
  rcases hdiff with h | h | h
  · rw [h]
    exact ⟨⟨fun _ => rfl, fun _ => rfl⟩, ⟨fun _ => rfl, fun _ => rfl⟩⟩
  · rw [h]
    have hne := (dayOf_step_ne (epochDay tz t0)).1
    refine ⟨⟨fun hc => absurd hc hne, fun hc => absurd hc (by omega)⟩,
      ⟨fun hc => absurd (congrArg CivilDate.day hc) hne,
       fun hc => absurd hc (by omega)⟩⟩
  · rw [h]
    have hne := (dayOf_step_ne (epochDay tz t0)).2
    refine ⟨⟨fun hc => absurd hc hne, fun hc => absurd hc (by omega)⟩,
      ⟨fun hc => absurd (congrArg CivilDate.day hc) hne,
       fun hc => absurd hc (by omega)⟩⟩

/-- C3 counterexample: as stated over arbitrary groups, the claim is
false.  In the continuous-mode group `cexG` whose records are exactly a
month apart (same day-of-month, different calendar day), the second
point's label is the bare time string with no day-offset marker, even
though the record's calendar day differs from the group's first
record's: the source compares `getDate` (day of month), not the
calendar day. -/
theorem toChartData_label_counterexample :
    cexG.type = GroupType.h24 ∧
    civilOf 0 cexB.date ≠ civilOf 0 cexA.date ∧
    (toChartData 0 cexG).map ChartDataPoint.label =
      [formatTime 0 cexA.date, formatTime 0 cexB.date] ∧
    formatTime 0 cexB.date ≠ "+1 " ++ formatTime 0 cexB.date := by
  refine ⟨rfl, by decide, by decide, by decide⟩

/-- C3 (amended): for a group whose records all lie within the 30-hour
window after the group's first record — which `groupRecords` guarantees —
a continuous-mode chart point's label is the record's zero-padded
hour:minute time of day, prefixed with the `"+1 "` day-offset marker
exactly when the record's local calendar day differs from the first
record's; for a regular-mode group the label is the locale-formatted
calendar date with no day-offset logic.  (Without the window hypothesis
the marker tracks day-of-month only, see the counterexample.) -/
theorem toChartData_label (tz : Int) (g : RecordGroup)
    (hwin : ∀ f ∈ g.records.head?, ∀ r ∈ g.records,
      f.date ≤ r.date ∧ r.date - f.date ≤ THIRTY_HOURS_MS) :
    ∀ i : Nat, ∀ p ∈ (toChartData tz g)[i]?, ∀ r ∈ g.records[i]?,
      ∀ f ∈ g.records.head?,
      (g.type = GroupType.h24 →
        p.label = if civilOf tz r.date ≠ civilOf tz f.date then
          "+1 " ++ formatTime tz r.date
        else formatTime tz r.date) ∧
      (g.type = GroupType.regular → p.label = formatDate tz r.date) := by
  rcases hr : g.records with _ | ⟨first, t⟩
  · intro i p hp
    rw [toChartData_nil tz g hr] at hp
    exact absurd hp (by simp)
  · intro i p hp r hri f hfm
    simp only [List.head?_cons, Option.mem_def, Option.some.injEq] at hfm
    subst hfm
    rw [toChartData_eq_map tz g first t hr, List.getElem?_map] at hp
    rcases hopt : (first :: t)[i]? with _ | r2
    · rw [hopt] at hp
      exact absurd hp (by simp)
    · rw [hopt] at hp hri
      simp only [Option.map_some', Option.mem_def, Option.some.injEq]
        at hp hri
      subst hri
      subst hp
      have hrmem : r2 ∈ (first :: t) := List.getElem?_mem hopt
      have hw := hwin first (by rw [hr]; rfl) r2 (by rw [hr]; exact hrmem)
      have hiff := getDate_window_iff tz first.date r2.date hw.1 hw.2
      have hcond : (getDate tz r2.date ≠ getDate tz first.date) ↔
          (civilOf tz r2.date ≠ civilOf tz first.date) :=
        not_congr (hiff.1.trans hiff.2.symm)
      constructor
      · intro htype
        dsimp only
        rw [if_pos htype]
        exact if_congr hcond rfl rfl
      · intro htype
        have hne : ¬ (g.type = GroupType.h24) := by
          rw [htype]
          intro hcon
          exact absurd hcon (by simp)
        dsimp only
        rw [if_neg hne]

/-- Instantiation of the amended label law at the midnight-crossing
concrete group: the second record falls on the next calendar day and its
label carries the `"+1 "` marker. -/
theorem toChartData_label_witness :
    ((wNightG.type = GroupType.h24 →
      wNightPointB.label =
        if civilOf 0 wNightB.date ≠ civilOf 0 wNightA.date then
          "+1 " ++ formatTime 0 wNightB.date
        else formatTime 0 wNightB.date) ∧
    (wNightG.type = GroupType.regular →
      wNightPointB.label = formatDate 0 wNightB.date)) ∧
    civilOf 0 wNightB.date ≠ civilOf 0 wNightA.date ∧
    wNightPointB.label = "+1 " ++ formatTime 0 wNightB.date :=
  ⟨toChartData_label 0 wNightG
    (by
      intro f hf r hr
      have hf2 : some wNightA = some f := hf
      injection hf2 with hf3
      subst hf3
      have hr2 : r ∈ [wNightA, wNightB] := hr
      rcases List.mem_cons.mp hr2 with rfl | hr3
      · exact ⟨le_refl _, by decide⟩
      · rcases List.mem_cons.mp hr3 with rfl | hr4
        · exact ⟨by decide, by decide⟩
        · exact absurd hr4 (List.not_mem_nil r))
    1 wNightPointB (Option.mem_def.mpr rfl) wNightB (Option.mem_def.mpr rfl)
    wNightA (Option.mem_def.mpr rfl),
   by decide, rfl⟩

end EyePressure
